import Mathlib

/-!
# sponge: a verification development

A shallow embedding of `sponge.go` (one Go file that fetches the top items of
Hacker News, Reddit r/golang and the New York Times and writes them to a text
file) and theorems about it.

Modelling conventions.

* `fmt.Sprintf` with `%s` / `%d` verbs is string concatenation.
* A Go panic is `Except.error msg`; a normal return is `Except.ok v`.
* The network and the JSON decoder are the environment.  One HTTP exchange is
  a `GetResult`: either the client reports an error, or there is a response
  carrying its status code, the value `decoder.Decode` leaves in its target
  and whether `Decode` returned a non-nil error.
* A Go slice of `int` carries its backing array, so that the bound of a
  slice expression is the capacity and the bound of an index expression is
  the length.
* The output file is its content together with the outcomes the file system
  gives to the coming writes; the code discards the error of every write.
* The goroutines of `getHackerNews` are an interleaving transition system:
  `Engine.step` moves one thread, chosen by an `Action`, and answers `none`
  when that thread is blocked.
-/

namespace Sponge

/-! ## Data model -/

/-- Line 30: `var itemsToFetch = 10`. -/
def itemsToFetch : Nat := 10

/-- Lines 35-37: `type Formatted struct { Body string }`. -/
structure Formatted where
  Body : String
deriving DecidableEq, Repr

/-- Lines 43-46. -/
structure HackerNewsItem where
  Title : String
  Url : String
deriving DecidableEq, Repr

/-- Lines 130-133. -/
structure RedditItem where
  Title : String
  Url : String
deriving DecidableEq, Repr

/-- Lines 194-197. -/
structure NytItem where
  Title : String
  Url : String
deriving DecidableEq, Repr

/-- Lines 48-51: `fmt.Sprintf("Title: %s\nUrl: %s", h.Title, h.Url)`. -/
def HackerNewsItem.getFormatted (h : HackerNewsItem) : Formatted :=
  { Body := "Title: " ++ h.Title ++ "\nUrl: " ++ h.Url }

/-- Lines 135-138. -/
def RedditItem.getFormatted (r : RedditItem) : Formatted :=
  { Body := "Title: " ++ r.Title ++ "\nUrl: " ++ r.Url }

/-- Lines 199-202. -/
def NytItem.getFormatted (n : NytItem) : Formatted :=
  { Body := "Title: " ++ n.Title ++ "\nUrl: " ++ n.Url }

/-- Lines 140-146: `RedditList.Data.Children[i].Data` is a `RedditItem`; the
two wrapper structs carry nothing else, so the list of children is kept. -/
structure RedditList where
  Children : List RedditItem
deriving DecidableEq, Repr

/-- Lines 204-206. -/
structure NytList where
  Results : List NytItem
deriving DecidableEq, Repr

/-! ## Environment: HTTP exchanges, decoded bodies, Go slices -/

/-- A response as the code sees it: `resp.StatusCode`, the value that
`json.NewDecoder(resp.Body).Decode(&target)` leaves in `target`, and whether
that call returned a non-nil error. -/
structure Response (α : Type) where
  StatusCode : Nat
  decoded : α
  decodeErr : Bool
deriving DecidableEq, Repr

/-- The pair `(resp, err)` returned by `client.Get` / `client.Do`:
`failed` is `err != nil`. -/
inductive GetResult (α : Type) where
  | failed : GetResult α
  | resp (r : Response α) : GetResult α
deriving DecidableEq, Repr

/-- A Go slice of `int`: a backing array and a length.  The capacity is the
length of the backing array; the elements of the slice are the first `len`
cells. -/
structure IntSlice where
  array : List Int
  len : Nat
deriving DecidableEq, Repr

/-- Go `cap(s)`. -/
def IntSlice.cap (s : IntSlice) : Nat := s.array.length

/-- The elements `s[0], ..., s[len(s)-1]`. -/
def IntSlice.elems (s : IntSlice) : List Int := s.array.take s.len

/-- A slice value is well formed when `len(s) <= cap(s)`. -/
def IntSlice.WF (s : IntSlice) : Prop := s.len ≤ s.cap

/-- The nil slice (zero value of `[]int`). -/
def IntSlice.nil : IntSlice := { array := [], len := 0 }

/-- A slice whose capacity equals its length. -/
def IntSlice.ofList (l : List Int) : IntSlice := { array := l, len := l.length }

/-- Go simple slice expression `s[:high]` on a slice operand: the bound that
is checked is the capacity (`slice bounds out of range [:high] with capacity
cap`); the result shares the backing array and has length `high`. -/
def IntSlice.sliceTo (s : IntSlice) (high : Nat) : Except String IntSlice :=
  if high ≤ s.cap then .ok { array := s.array, len := high }
  else .error "slice bounds out of range"

/-- Go index expression `xs[i]` on a slice read: the bound is the length. -/
def index {α : Type} (xs : List α) (i : Nat) : Except String α :=
  match xs[i]? with
  | some x => .ok x
  | none => .error "index out of range"

/-- Go indexed assignment `xs[i] = v`: the bound is the length. -/
def assign {α : Type} (xs : List α) (i : Nat) (v : α) : Except String (List α) :=
  if i < xs.length then .ok (xs.set i v) else .error "index out of range"

/-! ## The fan-out/fan-in engine of `getHackerNews` (lines 73-123) -/

namespace Engine

/-- Program counter of one fetch goroutine (lines 86-103). -/
inductive UnitPc where
  /-- Line 89: about to call `client.Get` and decode. -/
  | fetching
  /-- Line 101: blocked in `collectorChan <- item.getFormatted()`. -/
  | sending (f : Formatted)
  /-- Body left; the deferred `wg.Done()` of line 87 is still to run. -/
  | exiting
  /-- Goroutine over. -/
  | finished
deriving DecidableEq, Repr

/-- Program counter of the calling goroutine. -/
inductive MainPc where
  /-- Line 78: about to run `wg.Add(len(hnTopItems))`. -/
  | addWg
  /-- Lines 80-104 then 106: `k` fetch goroutines launched so far. -/
  | spawning (k : Nat)
  /-- Lines 119-121: in `for item := range collectorChan`. -/
  | draining
  /-- Line 123. -/
  | returned
deriving DecidableEq, Repr

/-- Program counter of the closer goroutine (lines 106-117). -/
inductive WatcherPc where
  /-- Line 115: `wg.Wait()`. -/
  | waiting
  /-- Line 116: about to `close(collectorChan)`. -/
  | closing
  | done
deriving DecidableEq, Repr

/-- Shared and per-thread state of the engine. -/
structure State where
  main : MainPc
  /-- The `sync.WaitGroup` counter. -/
  wg : Nat
  /-- Launched fetch goroutines, in launch order. -/
  units : List UnitPc
  /-- The closer goroutine, once launched. -/
  watcher : Option WatcherPc
  /-- Whether `collectorChan` has been closed. -/
  closed : Bool
  /-- The slice `hnTopItemsDetails`. -/
  acc : List Formatted
  /-- A goroutine panicked (the process is gone). -/
  panicked : Bool
deriving DecidableEq, Repr

/-- Which thread the scheduler runs next. -/
inductive Action where
  | main
  | unit (i : Nat)
  | watcher
deriving DecidableEq, Repr

/-- State at line 73-77: nothing launched, counter zero, channel open. -/
def init : State :=
  { main := .addWg, wg := 0, units := [], watcher := none, closed := false,
    acc := [], panicked := false }

/-- Lines 89-102 of a fetch goroutine up to the channel send: what the
goroutine does with the outcome of its `client.Get` and `Decode`. -/
def afterFetch (r : GetResult HackerNewsItem) : UnitPc :=
  match r with
  | .failed => .exiting
  | .resp r => if r.decodeErr then .exiting else .sending r.decoded.getFormatted

/-- One step of the calling goroutine. -/
def stepMain (ids : List Int) (s : State) : Option State :=
  match s.main with
  | .addWg => some { s with main := .spawning 0, wg := s.wg + ids.length }
  | .spawning k =>
    if k < ids.length then
      some { s with main := .spawning (k + 1), units := s.units ++ [.fetching] }
    else
      some { s with main := .draining, watcher := some .waiting }
  | .draining => if s.closed then some { s with main := .returned } else none
  | .returned => none

/-- One step of fetch goroutine `i`.  `fetch i id` is the outcome of the
exchange of the `i`-th launched goroutine, whose argument is `id`; goroutine
`i` is launched by the `i`-th iteration of the loop of line 80, so its
argument is `ids[i]`.  The send on the unbuffered channel is a rendezvous
with the receive of the `range` loop, which appends the item (line 120).
A send on a closed channel and a `wg.Done()` at counter zero panic. -/
def stepUnit (ids : List Int) (fetch : Nat → Int → GetResult HackerNewsItem)
    (s : State) (i : Nat) : Option State :=
  match s.units[i]? with
  | none => none
  | some .fetching =>
    some { s with units := s.units.set i (afterFetch (fetch i (ids.getD i 0))) }
  | some (.sending f) =>
    if s.closed then some { s with panicked := true }
    else if s.main = .draining then
      some { s with units := s.units.set i .exiting, acc := s.acc ++ [f] }
    else none
  | some .exiting =>
    if s.wg = 0 then some { s with panicked := true }
    else some { s with units := s.units.set i .finished, wg := s.wg - 1 }
  | some .finished => none

/-- One step of the closer goroutine. -/
def stepWatcher (s : State) : Option State :=
  match s.watcher with
  | none => none
  | some .waiting => if s.wg = 0 then some { s with watcher := some .closing } else none
  | some .closing =>
    if s.closed then some { s with panicked := true }
    else some { s with watcher := some .done, closed := true }
  | some .done => none

/-- One scheduled step; `none` when the chosen thread is blocked, absent or
over, or when the process has panicked. -/
def step (ids : List Int) (fetch : Nat → Int → GetResult HackerNewsItem)
    (s : State) (a : Action) : Option State :=
  if s.panicked then none
  else match a with
    | .main => stepMain ids s
    | .unit i => stepUnit ids fetch s i
    | .watcher => stepWatcher s

/-- Run a schedule from a state. -/
def run (ids : List Int) (fetch : Nat → Int → GetResult HackerNewsItem)
    (s : State) : List Action → Option State
  | [] => some s
  | a :: as =>
    match step ids fetch s a with
    | none => none
    | some s' => run ids fetch s' as

/-- The contribution of one identifier to the result: its formatted record
when `client.Get` and `Decode` both succeed, nothing otherwise. -/
def outcome (r : GetResult HackerNewsItem) : List Formatted :=
  match r with
  | .failed => []
  | .resp r => if r.decodeErr then [] else [r.decoded.getFormatted]

/-- The formatted records of the identifiers whose fetch and decode
succeeded, in input order, one per occurrence. -/
def successesFrom (fetch : Nat → Int → GetResult HackerNewsItem) :
    Nat → List Int → List Formatted
  | _, [] => []
  | i, id :: ids => outcome (fetch i id) ++ successesFrom fetch (i + 1) ids

/-- Successes of a whole identifier list. -/
def successes (ids : List Int) (fetch : Nat → Int → GetResult HackerNewsItem) :
    List Formatted :=
  successesFrom fetch 0 ids

/-- What a goroutine at `pc` will still publish, given the outcome `r` of
its exchange. -/
def contrib (r : GetResult HackerNewsItem) (pc : UnitPc) : List Formatted :=
  match pc with
  | .fetching => outcome r
  | .sending f => [f]
  | .exiting => []
  | .finished => []

/-- Everything still to be published: by launched goroutines according to
their program counter, by goroutines still to be launched according to the
outcome of their exchange. -/
def pending (fetch : Nat → Int → GetResult HackerNewsItem) :
    Nat → List Int → List UnitPc → List Formatted
  | _, [], _ => []
  | i, id :: ids, [] => outcome (fetch i id) ++ pending fetch (i + 1) ids []
  | i, id :: ids, u :: us => contrib (fetch i id) u ++ pending fetch (i + 1) ids us

/-- Number of fetch goroutines, launched or still to be launched, that have
not finished. -/
def live : List Int → List UnitPc → Nat
  | [], _ => 0
  | _ :: ids, [] => 1 + live ids []
  | _ :: ids, u :: us => (if u = .finished then 0 else 1) + live ids us

/-- Steps a fetch goroutine can still take. -/
def UnitPc.weight : UnitPc → Nat
  | .fetching => 3
  | .sending _ => 2
  | .exiting => 1
  | .finished => 0

/-- Steps the caller can still take, launches included (each launch pays
for the three steps of the goroutine it creates and the last one for the
two steps of the closer). -/
def MainPc.weight (n : Nat) : MainPc → Nat
  | .addWg => 4 * n + 5
  | .spawning k => 4 * (n - k) + 4
  | .draining => 1
  | .returned => 0

/-- Steps the closer can still take. -/
def watcherWeight : Option WatcherPc → Nat
  | none => 0
  | some .waiting => 2
  | some .closing => 1
  | some .done => 0

/-- Steps the launched fetch goroutines can still take. -/
def unitsWeight : List UnitPc → Nat
  | [] => 0
  | u :: us => u.weight + unitsWeight us

/-- Termination measure of the engine: an upper bound on the number of
steps any schedule can still take. -/
def measure (ids : List Int) (s : State) : Nat :=
  (if s.panicked then 0 else 1) + s.main.weight ids.length + watcherWeight s.watcher
    + unitsWeight s.units

/-- The invariant of the engine. -/
structure Inv (ids : List Int) (fetch : Nat → Int → GetResult HackerNewsItem)
    (s : State) : Prop where
  notPanicked : s.panicked = false
  launched : s.units.length ≤ ids.length
  account : (s.acc ++ pending fetch 0 ids s.units).Perm (successes ids fetch)
  beforeAdd : s.main = .addWg → s.wg = 0 ∧ s.units = []
  counter : s.main ≠ .addWg → s.wg = live ids s.units
  spawned : ∀ k, s.main = .spawning k → s.units.length = k
  allLaunched : s.main = .draining ∨ s.main = .returned →
    s.units.length = ids.length ∧ s.watcher ≠ none
  noWatcher : s.main = .addWg ∨ (∃ k, s.main = .spawning k) → s.watcher = none
  open_ : s.closed = false → s.watcher ≠ some .done ∧ s.main ≠ .returned
  closed_ : s.closed = true → s.watcher = some .done ∧ s.wg = 0
  closing : s.watcher = some .closing → s.wg = 0

/-- Example inputs: five identifiers, the fetches of 2 and 4 fail (one at
the network, one at decoding). -/
def exampleIds : List Int := [1, 2, 3, 4, 5]

/-- Example environment for `exampleIds`. -/
def exampleFetch : Nat → Int → GetResult HackerNewsItem := fun _ id =>
  if id = 1 then .resp { StatusCode := 200, decoded := { Title := "one", Url := "u1" }, decodeErr := false }
  else if id = 2 then .failed
  else if id = 3 then .resp { StatusCode := 200, decoded := { Title := "three", Url := "u3" }, decodeErr := false }
  else if id = 4 then .resp { StatusCode := 200, decoded := { Title := "", Url := "" }, decodeErr := true }
  else .resp { StatusCode := 200, decoded := { Title := "five", Url := "u5" }, decodeErr := false }

/-- A complete schedule for `exampleIds` in which goroutine 4 publishes
first, then goroutine 0, then goroutine 2. -/
def exampleSchedule : List Action :=
  [.main, .main, .unit 0, .main, .main, .unit 1, .main, .main, .unit 4, .unit 3,
   .unit 1, .main, .unit 4, .unit 2, .unit 0, .unit 3, .unit 4, .unit 0, .unit 2,
   .unit 2, .watcher, .watcher, .main]

/-- The state `exampleSchedule` ends in. -/
def exampleFinal : State :=
  { main := .returned, wg := 0,
    units := [.finished, .finished, .finished, .finished, .finished],
    watcher := some .done, closed := true,
    acc := [{ Body := "Title: five\nUrl: u5" }, { Body := "Title: one\nUrl: u1" },
            { Body := "Title: three\nUrl: u3" }],
    panicked := false }

/-- Environment in which every exchange fails at the network. -/
def allFail : Nat → Int → GetResult HackerNewsItem := fun _ _ => .failed

/-- A schedule for two identifiers that stops while the caller is blocked in
the `range` loop and nothing has been published. -/
def stalledSchedule : List Action :=
  [.main, .main, .unit 0, .main, .main, .unit 1, .unit 0]

/-- A schedule for one identifier that stops with the goroutine blocked on
its send. -/
def sendingSchedule : List Action := [.main, .main, .unit 0, .main]

/-- The state `stalledSchedule` ends in for two identifiers under `allFail`. -/
def stalledState : State :=
  { main := .draining, wg := 1, units := [.finished, .exiting],
    watcher := some .waiting, closed := false, acc := [], panicked := false }

/-- The state `sendingSchedule` ends in for the identifier 1 under
`exampleFetch`. -/
def sendingState : State :=
  { main := .draining, wg := 1, units := [.sending { Body := "Title: one\nUrl: u1" }],
    watcher := some .waiting, closed := false, acc := [], panicked := false }

end Engine

/-! ## The three sources, the report writer and `main` -/

/-- What the file system does with one `f.WriteString(s)`: it takes all of
`s`, or the call fails after `n` characters of `s` have reached the file
(`n = 0` for a closed handle or a full device). -/
inductive WriteOutcome where
  | ok
  | failed (n : Nat)
deriving DecidableEq, Repr

/-- An `*os.File` written sequentially from its creation: what has reached
the file so far, and the outcomes of the coming `WriteString` calls in order
(once the list is used up every call succeeds). -/
structure File where
  content : String
  outcomes : List WriteOutcome
deriving DecidableEq, Repr

/-- The call `f.WriteString(s)` as used at lines 252, 255 and 256: its
results `(n, err)` are discarded, so only the effect on the file is kept. -/
def File.WriteString (f : File) (s : String) : File :=
  match f.outcomes with
  | [] => { content := f.content ++ s, outcomes := [] }
  | .ok :: rest => { content := f.content ++ s, outcomes := rest }
  | .failed n :: rest => { content := f.content ++ String.mk (s.data.take n), outcomes := rest }

/-- Whether every listed outcome is a success. -/
def allOk : List WriteOutcome → Bool
  | [] => true
  | .ok :: rest => allOk rest
  | .failed _ :: _ => false

/-- Whether every coming `WriteString` on the file succeeds. -/
def File.healthy (f : File) : Bool := allOk f.outcomes

/-- Everything outside the program that one run consults.  `hnItem i url` is
the exchange of the `i`-th fetch goroutine of `getHackerNews`; the other
fields are the exchanges of the three list requests, `os.Getenv`, whether
`os.Create` succeeds, and the outcomes of the writes to the created file. -/
structure World where
  getenv : String → String
  hnList : String → GetResult IntSlice
  hnItem : Nat → String → GetResult HackerNewsItem
  reddit : String → String → GetResult RedditList
  nyt : String → GetResult NytList
  createOk : Bool
  writeOutcomes : List WriteOutcome

/-- Result of one source function together with the URLs it requested. -/
structure Call where
  result : Except String (List Formatted)
  requests : List String

/-- Line 54. -/
def hackerNewsListUrl : String := "https://hacker-news.firebaseio.com/v0/topstories.json"

/-- Line 55 applied at line 89: `fmt.Sprintf(hackerNewsItemUrl, id)`. -/
def hackerNewsItemUrl (id : Int) : String :=
  "https://hacker-news.firebaseio.com/v0/item/" ++ toString id ++ ".json"

/-- Lines 70-71.  Line 71 is written `append(hnTopItems, ...hnl[:itemsToFetch])`,
which is read as the variadic call `append(hnTopItems, hnl[:itemsToFetch]...)`
with `hnTopItems` nil: the elements of the slice `hnl[:itemsToFetch]`. -/
def hnTake (hnl : IntSlice) : Except String (List Int) :=
  match hnl.sliceTo itemsToFetch with
  | .error e => .error e
  | .ok t => .ok t.elems

/-- Lines 57-71 of `getHackerNews`: `none` is the early `return nil, err` of
line 61; the result of `decoder.Decode(&hnl)` at line 67 is discarded, so the
decode error flag is not consulted, and neither is the status code. -/
def hnTopItems (w : World) : Except String (Option (List Int)) :=
  match w.hnList hackerNewsListUrl with
  | .failed => .ok none
  | .resp r =>
    match hnTake r.decoded with
    | .error e => .error e
    | .ok ids => .ok (some ids)

/-- Lines 53-124, `getHackerNews`, with the interleaving of its goroutines
given by `sched`.  `.error` is a panic, `.ok (some l)` is a return of `l`,
and `.ok none` says that `sched` is not a complete run of the engine (some
scheduled thread cannot move, or the caller has not returned yet). -/
def getHackerNews (w : World) (sched : List Engine.Action) :
    Except String (Option (List Formatted)) :=
  match hnTopItems w with
  | .error e => .error e
  | .ok none => .ok (some [])
  | .ok (some ids) =>
    match Engine.run ids (fun i id => w.hnItem i (hackerNewsItemUrl id)) Engine.init sched with
    | none => .ok none
    | some s =>
      if s.panicked then .error "goroutine panic"
      else if s.main = .returned then .ok (some s.acc)
      else .ok none

/-- Lines 182-185: the `range` loop over the children, from index `i`. -/
def fillReddit : Nat → List RedditItem → List Formatted → Except String (List Formatted)
  | _, [], items => .ok items
  | i, item :: rest, items =>
    match assign items i item.getFormatted with
    | .error e => .error e
    | .ok items' => fillReddit (i + 1) rest items'

/-- Line 156: the `User-Agent` header. -/
def userAgent (redditUsername : String) : String :=
  "golang Sponge:0.0.1 (by /u/" ++ redditUsername ++ ")"

/-- Line 158. -/
def golangListUrl : String :=
  "https://www.reddit.com/r/golang/top.json?raw_json=1&t=day&limit=" ++ toString itemsToFetch

/-- Line 217. -/
def nytUrl (nytApiKey : String) : String :=
  "https://api.nytimes.com/svc/topstories/v2/home.json?api-key=" ++ nytApiKey

/-- Lines 148-188, `getRedditGolang`. -/
def getRedditGolang (w : World) : Call :=
  let redditUsername := w.getenv "REDDIT_USERNAME"
  if redditUsername = "" then { result := .ok [], requests := [] }
  else
    match w.reddit golangListUrl (userAgent redditUsername) with
    | .failed => { result := .ok [], requests := [golangListUrl] }
    | .resp r =>
      if r.StatusCode ≠ 200 then { result := .ok [], requests := [golangListUrl] }
      else if r.decodeErr then { result := .ok [], requests := [golangListUrl] }
      else
        { result := fillReddit 0 r.decoded.Children (List.replicate itemsToFetch { Body := "" }),
          requests := [golangListUrl] }

/-- Lines 237-240: the counted loop of `getNyt`, with `n` iterations left and
loop variable `i`. -/
def fillNyt (results : List NytItem) : Nat → Nat → List Formatted → Except String (List Formatted)
  | 0, _, items => .ok items
  | n + 1, i, items =>
    match index results i with
    | .error e => .error e
    | .ok item =>
      match assign items i item.getFormatted with
      | .error e => .error e
      | .ok items' => fillNyt results n (i + 1) items'

/-- Lines 236-242: `nytItems` as filled from the decoded results. -/
def nytTake (results : List NytItem) : Except String (List Formatted) :=
  fillNyt results itemsToFetch 0 (List.replicate itemsToFetch { Body := "" })

/-- Lines 208-243, `getNyt`.  The status code is not consulted. -/
def getNyt (w : World) : Call :=
  let nytApiKey := w.getenv "NYT_API_KEY"
  if nytApiKey = "" then { result := .ok [], requests := [] }
  else
    match w.nyt (nytUrl nytApiKey) with
    | .failed => { result := .ok [], requests := [nytUrl nytApiKey] }
    | .resp r =>
      if r.decodeErr then { result := .ok [], requests := [nytUrl nytApiKey] }
      else { result := nytTake r.decoded.Results, requests := [nytUrl nytApiKey] }

/-- Lines 250-251: the heading of a section. -/
def heading (sectionName : String) : String :=
  "\n\n=====================================\n" ++ sectionName
    ++ "\n=====================================\n\n"

/-- Lines 249-260, `writeSection`: the file after the call and the line
printed at line 259.  The errors of the three `WriteString` calls are
discarded and line 259 is reached in every case. -/
def writeSection (f : File) (sectionName : String) (items : List Formatted) :
    File × String :=
  let f := f.WriteString (heading sectionName)
  let f := items.foldl (fun f item => (f.WriteString item.Body).WriteString "\n\n") f
  (f, "wrote " ++ toString items.length ++ " " ++ sectionName ++ " items\n")

/-- What a run of `main` leaves behind: the output file (`none` when
`os.Create` failed) and the lines printed by `writeSection`. -/
structure Output where
  file : Option String
  report : List String
deriving DecidableEq, Repr

/-- Lines 262-281, `main`.  A panic of a source function is not recovered
anywhere, so it ends the run: `.error`.  `.ok none` says that `sched` is not
a complete run of the engine of `getHackerNews`. -/
def main (w : World) (sched : List Engine.Action) : Except String (Option Output) :=
  match (getRedditGolang w).result with
  | .error e => .error e
  | .ok redditItems =>
    match getHackerNews w sched with
    | .error e => .error e
    | .ok none => .ok none
    | .ok (some hackerNewsItems) =>
      match (getNyt w).result with
      | .error e => .error e
      | .ok nytItems =>
        if w.createOk then
          let f : File := { content := "", outcomes := w.writeOutcomes }
          let w1 := writeSection f "New York Times" nytItems
          let w2 := writeSection w1.1 "Hacker News" hackerNewsItems
          let w3 := writeSection w2.1 "Reddit Golang" redditItems
          .ok (some { file := some w3.1.content, report := [w1.2, w2.2, w3.2] })
        else .ok (some { file := none, report := [] })

/-! ## Concrete environments used in the examples -/

/-- A decoded identifier list with nine entries in a backing array of
sixteen cells (what growth by doubling leaves after nine appends). -/
def nineOfSixteen : IntSlice :=
  { array := [1, 2, 3, 4, 5, 6, 7, 8, 9, 0, 0, 0, 0, 0, 0, 0], len := 9 }

/-- An environment in which the Hacker News list request is answered with
`nineOfSixteen`. -/
def nineEntriesWorld : World :=
  { getenv := fun _ => "",
    hnList := fun _ => .resp { StatusCode := 200, decoded := nineOfSixteen, decodeErr := false },
    hnItem := fun _ _ => .failed,
    reddit := fun _ _ => .failed,
    nyt := fun _ => .failed,
    createOk := true,
    writeOutcomes := [] }

/-- A decoded New York Times list with nine results. -/
def nineResults : List NytItem :=
  [{ Title := "1", Url := "" }, { Title := "2", Url := "" }, { Title := "3", Url := "" },
   { Title := "4", Url := "" }, { Title := "5", Url := "" }, { Title := "6", Url := "" },
   { Title := "7", Url := "" }, { Title := "8", Url := "" }, { Title := "9", Url := "" }]

/-- A file on which the next three writes fail with nothing written (a
closed handle, a full device). -/
def failingFile : File :=
  { content := "", outcomes := [.failed 0, .failed 0, .failed 0] }

/-- A file holding one earlier section on which every write succeeds. -/
def healthyFile : File := { content := "earlier\n", outcomes := [.ok, .ok, .ok] }

/-- An environment without credentials in which the Hacker News list request
answers with a body that does not decode. -/
def undecodableListWorld : World :=
  { getenv := fun _ => "",
    hnList := fun _ => .resp { StatusCode := 200, decoded := IntSlice.nil, decodeErr := true },
    hnItem := fun _ _ => .failed,
    reddit := fun _ _ => .failed,
    nyt := fun _ => .failed,
    createOk := true,
    writeOutcomes := [] }

/-- An environment in which the New York Times answers 403 with a JSON body
that decodes to an empty result list. -/
def nytForbiddenWorld : World :=
  { getenv := fun name => if name = "NYT_API_KEY" then "k" else "",
    hnList := fun _ => .failed,
    hnItem := fun _ _ => .failed,
    reddit := fun _ _ => .failed,
    nyt := fun _ => .resp { StatusCode := 403, decoded := { Results := [] }, decodeErr := false },
    createOk := true,
    writeOutcomes := [] }

/-- An environment in which the Hacker News list has ten identifiers, the
detail request of the first one is answered 404 with a JSON body that decodes
(to a record with empty fields), and the other nine fail at the network. -/
def statusWorld : World :=
  { getenv := fun _ => "",
    hnList := fun _ =>
      .resp { StatusCode := 200, decoded := IntSlice.ofList [1, 2, 3, 4, 5, 6, 7, 8, 9, 10],
              decodeErr := false },
    hnItem := fun i _ =>
      if i = 0 then
        .resp { StatusCode := 404, decoded := { Title := "", Url := "" }, decodeErr := false }
      else .failed,
    reddit := fun _ _ => .failed,
    nyt := fun _ => .failed,
    createOk := true,
    writeOutcomes := [] }

/-- A complete schedule of the engine for ten identifiers: the caller
launches everything, then every goroutine runs to its end in launch order,
then the closer closes the channel and the caller returns. -/
def statusSchedule : List Engine.Action :=
  [.main, .main, .main, .main, .main, .main, .main, .main, .main, .main, .main, .main,
   .unit 0, .unit 0, .unit 0, .unit 1, .unit 1, .unit 2, .unit 2, .unit 3, .unit 3,
   .unit 4, .unit 4, .unit 5, .unit 5, .unit 6, .unit 6, .unit 7, .unit 7, .unit 8,
   .unit 8, .unit 9, .unit 9, .watcher, .watcher, .main]

/-- An environment without credentials whose endpoints would all answer
with data. -/
def noCredentialWorld : World :=
  { getenv := fun _ => "",
    hnList := fun _ => .failed,
    hnItem := fun _ _ => .failed,
    reddit := fun _ _ =>
      .resp { StatusCode := 200, decoded := { Children := [{ Title := "t", Url := "u" }] },
              decodeErr := false },
    nyt := fun _ =>
      .resp { StatusCode := 200, decoded := { Results := [{ Title := "t", Url := "u" }] },
              decodeErr := false },
    createOk := true,
    writeOutcomes := [] }

/-- A Reddit answer with two children. -/
def twoChildren : Response RedditList :=
  { StatusCode := 200,
    decoded := { Children := [{ Title := "a", Url := "x" }, { Title := "b", Url := "y" }] },
    decodeErr := false }

/-- An environment with a Reddit user name whose list request answers
`twoChildren`. -/
def twoChildrenWorld : World :=
  { getenv := fun name => if name = "REDDIT_USERNAME" then "gopher" else "",
    hnList := fun _ => .failed,
    hnItem := fun _ _ => .failed,
    reddit := fun _ _ => .resp twoChildren,
    nyt := fun _ => .failed,
    createOk := true,
    writeOutcomes := [] }

/-! ## Definitions that follow the specification's words -/

/-- The text of the items of a section as the specification describes it:
for each item in input order, its body followed by a blank line. -/
def itemsText : List Formatted → String
  | [] => ""
  | item :: rest => item.Body ++ "\n\n" ++ itemsText rest

/-- A line of 37 `=` characters. -/
def rule37 : String := String.mk (List.replicate 37 '=')

end Sponge

namespace Sponge

namespace Engine

variable {ids : List Int} {fetch : Nat → Int → GetResult HackerNewsItem}

theorem live_append_fetching (ids : List Int) (units : List UnitPc) :
    live ids (units ++ [.fetching]) = live ids units := by
  induction ids generalizing units with
  | nil => simp [live]
  | cons id ids ih =>
    cases units with
    | nil => simp [live]
    | cons u us => simp [live, ih]

theorem live_set_of_ne {units : List UnitPc} {j : Nat} {u u' : UnitPc} (ids : List Int)
    (h : units[j]? = some u) (hu : u ≠ .finished) (hu' : u' ≠ .finished) :
    live ids (units.set j u') = live ids units := by
  induction ids generalizing units j with
  | nil => simp [live]
  | cons id ids ih =>
    cases units with
    | nil => simp at h
    | cons v vs =>
      cases j with
      | zero =>
        simp at h
        subst h
        simp [live, hu, hu']
      | succ j =>
        simp at h
        simp [live, ih h]

theorem live_set_finished {units : List UnitPc} {j : Nat} {u : UnitPc} (ids : List Int)
    (h : units[j]? = some u) (hu : u ≠ .finished) (hj : j < ids.length) :
    live ids (units.set j .finished) + 1 = live ids units := by
  induction ids generalizing units j with
  | nil => simp at hj
  | cons id ids ih =>
    cases units with
    | nil => simp at h
    | cons v vs =>
      cases j with
      | zero =>
        simp at h
        subst h
        simp [live, hu]
        omega
      | succ j =>
        simp at h hj
        have := ih h hj
        simp [live]
        omega

theorem live_pos_of {units : List UnitPc} {j : Nat} {u : UnitPc} (ids : List Int)
    (h : units[j]? = some u) (hu : u ≠ .finished) (hj : j < ids.length) :
    0 < live ids units := by
  have := live_set_finished ids h hu hj
  omega

theorem exists_unfinished {units : List UnitPc} (ids : List Int)
    (h : 0 < live ids units) (hlen : units.length = ids.length) :
    ∃ j : Nat, ∃ u : UnitPc, units[j]? = some u ∧ u ≠ .finished := by
  induction ids generalizing units with
  | nil => simp [live] at h
  | cons id ids ih =>
    cases units with
    | nil => simp at hlen
    | cons v vs =>
      by_cases hv : v = .finished
      · subst hv
        simp [live] at h
        simp at hlen
        obtain ⟨j, u, hj, hu⟩ := ih h hlen
        exact ⟨j + 1, u, by simpa using hj, hu⟩
      · exact ⟨0, v, by simp, hv⟩

theorem all_finished_of_live_zero {units : List UnitPc} (ids : List Int)
    (h : live ids units = 0) (hlen : units.length = ids.length) :
    ∀ u ∈ units, u = .finished := by
  intro u hu
  by_contra hne
  obtain ⟨j, hj, hget⟩ := List.getElem_of_mem hu
  have hj' : j < ids.length := by omega
  have := live_pos_of ids (List.getElem?_eq_getElem hj ▸ congrArg some hget) hne hj'
  omega

theorem pending_nil_of_live_zero {units : List UnitPc} (ids : List Int) (i : Nat)
    (h : live ids units = 0) : pending fetch i ids units = [] := by
  induction ids generalizing units i with
  | nil => simp [pending]
  | cons id ids ih =>
    cases units with
    | nil => simp [live] at h
    | cons v vs =>
      simp [live] at h
      obtain ⟨hv, hrest⟩ := h
      subst hv
      simp [pending, contrib, ih _ hrest]

theorem pending_append_fetching (ids : List Int) (i : Nat) (units : List UnitPc) :
    pending fetch i ids (units ++ [.fetching]) = pending fetch i ids units := by
  induction ids generalizing units i with
  | nil => simp [pending]
  | cons id ids ih =>
    cases units with
    | nil =>
      cases ids <;> simp [pending, contrib]
    | cons u us => simp [pending, ih]

theorem contrib_afterFetch (r : GetResult HackerNewsItem) :
    contrib r (afterFetch r) = outcome r := by
  cases r with
  | failed => rfl
  | resp r =>
    by_cases h : r.decodeErr = true <;> simp [afterFetch, outcome, contrib, h]

theorem pending_set_afterFetch {units : List UnitPc} {j : Nat} (ids : List Int) (i : Nat)
    (h : units[j]? = some .fetching) :
    pending fetch i ids (units.set j (afterFetch (fetch (i + j) (ids.getD j 0))))
      = pending fetch i ids units := by
  induction ids generalizing units i j with
  | nil => simp [pending]
  | cons id ids ih =>
    cases units with
    | nil => simp at h
    | cons v vs =>
      cases j with
      | zero =>
        simp at h
        subst h
        simp only [List.set_cons_zero, pending, List.getD_cons_zero, Nat.add_zero,
          contrib_afterFetch]
        rfl
      | succ j =>
        simp at h
        have := ih (i + 1) h
        simp only [List.set_cons_succ, pending, List.getD_cons_succ]
        rw [show i + (j + 1) = i + 1 + j by omega, this]

theorem pending_set_exit {units : List UnitPc} {j : Nat} (ids : List Int) (i : Nat)
    (h : units[j]? = some .exiting) :
    pending fetch i ids (units.set j .finished) = pending fetch i ids units := by
  induction ids generalizing units i j with
  | nil => simp [pending]
  | cons id ids ih =>
    cases units with
    | nil => simp at h
    | cons v vs =>
      cases j with
      | zero =>
        simp at h
        subst h
        simp [pending, contrib]
      | succ j =>
        simp at h
        simp [pending, ih (i + 1) h]

theorem pending_set_send {units : List UnitPc} {j : Nat} {f : Formatted} (ids : List Int)
    (i : Nat) (h : units[j]? = some (.sending f)) (hj : j < ids.length) :
    (pending fetch i ids units).Perm (f :: pending fetch i ids (units.set j .exiting)) := by
  induction ids generalizing units i j with
  | nil => simp at hj
  | cons id ids ih =>
    cases units with
    | nil => simp at h
    | cons v vs =>
      cases j with
      | zero =>
        simp at h
        subst h
        simp [pending, contrib]
      | succ j =>
        simp at h hj
        have := ih (i + 1) h hj
        simp only [pending, List.set_cons_succ]
        exact (List.Perm.append_left _ this).trans List.perm_middle

theorem pending_nil_units (ids : List Int) (i : Nat) :
    pending fetch i ids [] = successesFrom fetch i ids := by
  induction ids generalizing i with
  | nil => rfl
  | cons id ids ih => simp [pending, successesFrom, ih]

theorem live_nil_units (ids : List Int) : live ids [] = ids.length := by
  induction ids with
  | nil => rfl
  | cons id ids ih => simp [live, ih]; omega

theorem afterFetch_ne_finished (r : GetResult HackerNewsItem) :
    afterFetch r ≠ .finished := by
  cases r with
  | failed => simp [afterFetch]
  | resp r => by_cases h : r.decodeErr = true <;> simp [afterFetch, h]

theorem inv_init (ids : List Int) (fetch : Nat → Int → GetResult HackerNewsItem) :
    Inv ids fetch init := by
  constructor <;> simp [init, pending_nil_units, successes]

theorem inv_stepMain {s s' : State} (h : Inv ids fetch s)
    (hs : stepMain ids s = some s') : Inv ids fetch s' := by
  obtain ⟨main, wg, units, watcher, closed, acc, panicked⟩ := s
  obtain ⟨h1, h2, h3, h4, h5, h6, h7, h8, h9, h10, h11⟩ := h
  simp only at h1 h2 h3 h4 h5 h6 h7 h8 h9 h10 h11
  cases main with
  | addWg =>
    simp [stepMain] at hs
    subst hs
    obtain ⟨hw, hu⟩ := h4 rfl
    have hwat := h8 (Or.inl rfl)
    subst hw hu hwat
    constructor <;> simp_all [live_nil_units]
  | spawning k =>
    have hk := h6 k rfl
    have hwat := h8 (Or.inr ⟨k, rfl⟩)
    have hwg := h5 (by simp)
    subst hwat
    by_cases hlt : k < ids.length
    · simp [stepMain, hlt] at hs
      subst hs
      constructor <;> simp_all [live_append_fetching, pending_append_fetching]
      omega
    · simp [stepMain, hlt] at hs
      subst hs
      constructor <;> simp_all
      omega
  | draining =>
    by_cases hc : closed = true
    · simp [stepMain, hc] at hs
      subst hs
      constructor <;> simp_all
    · simp [stepMain, hc] at hs
  | returned => simp [stepMain] at hs

theorem inv_stepWatcher {s s' : State} (h : Inv ids fetch s)
    (hs : stepWatcher s = some s') : Inv ids fetch s' := by
  obtain ⟨main, wg, units, watcher, closed, acc, panicked⟩ := s
  obtain ⟨h1, h2, h3, h4, h5, h6, h7, h8, h9, h10, h11⟩ := h
  simp only at h1 h2 h3 h4 h5 h6 h7 h8 h9 h10 h11
  cases watcher with
  | none => simp [stepWatcher] at hs
  | some w =>
    cases w with
    | waiting =>
      by_cases hz : wg = 0
      · simp [stepWatcher, hz] at hs
        subst hs
        constructor <;> simp_all
      · simp [stepWatcher, hz] at hs
    | closing =>
      by_cases hc : closed = true
      · simp_all
      · simp [stepWatcher, hc] at hs
        subst hs
        constructor <;> simp_all
    | done => simp [stepWatcher] at hs

theorem inv_stepUnit {s s' : State} {i : Nat} (h : Inv ids fetch s)
    (hs : stepUnit ids fetch s i = some s') : Inv ids fetch s' := by
  obtain ⟨main, wg, units, watcher, closed, acc, panicked⟩ := s
  obtain ⟨h1, h2, h3, h4, h5, h6, h7, h8, h9, h10, h11⟩ := h
  simp only at h1 h2 h3 h4 h5 h6 h7 h8 h9 h10 h11
  cases hu : units[i]? with
  | none => simp [stepUnit, hu] at hs
  | some pc =>
    have hi : i < units.length := by
      by_contra hge
      rw [List.getElem?_eq_none (by omega)] at hu
      simp at hu
    have hne : units ≠ [] := by
      intro h0
      subst h0
      simp at hi
    have hmain : main ≠ .addWg := fun hm => hne (h4 hm).2
    have hwg := h5 hmain
    have hil : i < ids.length := by omega
    cases pc with
    | fetching =>
      simp [stepUnit, hu] at hs
      subst hs
      have hp := @pending_set_afterFetch fetch _ _ ids 0 hu
      have hl := @live_set_of_ne _ _ _ (afterFetch (fetch i (ids.getD i 0))) ids hu
        (by simp) (afterFetch_ne_finished _)
      simp only [Nat.zero_add] at hp
      constructor <;> simp_all
    | sending f =>
      have hpos := live_pos_of ids hu (by simp) hil
      by_cases hc : closed = true
      · have := (h10 hc).2
        omega
      · by_cases hm : main = .draining
        · simp [stepUnit, hu, hc, hm] at hs
          subst hs
          have hp := @pending_set_send fetch _ _ _ ids 0 hu hil
          have hl := @live_set_of_ne _ _ _ UnitPc.exiting ids hu (by simp) (by simp)
          have hacc : (acc ++ [f] ++ pending fetch 0 ids (units.set i .exiting)).Perm
              (successes ids fetch) := by
            refine List.Perm.trans ?_ h3
            rw [List.append_assoc]
            exact List.Perm.append_left _ (by simpa using hp.symm)
          constructor <;> simp_all
        · simp [stepUnit, hu, hc, hm] at hs
    | exiting =>
      have hpos := live_pos_of ids hu (by simp) hil
      have hz : wg ≠ 0 := by omega
      simp [stepUnit, hu, hz] at hs
      subst hs
      have hp := @pending_set_exit fetch _ _ ids 0 hu
      have hl := live_set_finished ids hu (by simp) hil
      constructor <;> simp_all
      omega
    | finished => simp [stepUnit, hu] at hs

theorem inv_step {s s' : State} {a : Action} (h : Inv ids fetch s)
    (hs : step ids fetch s a = some s') : Inv ids fetch s' := by
  unfold step at hs
  simp only [h.notPanicked, Bool.false_eq_true, if_false] at hs
  cases a with
  | main => exact inv_stepMain h hs
  | unit i => exact inv_stepUnit h hs
  | watcher => exact inv_stepWatcher h hs

theorem inv_run {s s' : State} {sched : List Action} (h : Inv ids fetch s)
    (hs : run ids fetch s sched = some s') : Inv ids fetch s' := by
  induction sched generalizing s with
  | nil =>
    simp [run] at hs
    subst hs
    exact h
  | cons a as ih =>
    simp only [run] at hs
    cases hstep : step ids fetch s a with
    | none => simp [hstep] at hs
    | some s1 =>
      simp only [hstep] at hs
      exact ih (inv_step h hstep) hs

theorem weight_set {units : List UnitPc} {j : Nat} {u : UnitPc} (u' : UnitPc)
    (h : units[j]? = some u) :
    unitsWeight (units.set j u') + u.weight = unitsWeight units + u'.weight := by
  induction units generalizing j with
  | nil => simp at h
  | cons v vs ih =>
    cases j with
    | zero =>
      simp at h
      subst h
      simp only [List.set_cons_zero, unitsWeight]
      omega
    | succ j =>
      simp at h
      have := ih h
      simp only [List.set_cons_succ, unitsWeight]
      omega

theorem unitsWeight_append (units : List UnitPc) (u : UnitPc) :
    unitsWeight (units ++ [u]) = unitsWeight units + u.weight := by
  induction units with
  | nil => simp [unitsWeight]
  | cons v vs ih =>
    rw [List.cons_append, unitsWeight, unitsWeight, ih]
    omega

theorem afterFetch_weight (r : GetResult HackerNewsItem) : (afterFetch r).weight ≤ 2 := by
  cases r with
  | failed => simp [afterFetch, UnitPc.weight]
  | resp r => by_cases h : r.decodeErr = true <;> simp [afterFetch, h, UnitPc.weight]

theorem measure_step {s s' : State} {a : Action}
    (hs : step ids fetch s a = some s') : measure ids s' < measure ids s := by
  obtain ⟨main, wg, units, watcher, closed, acc, panicked⟩ := s
  unfold step at hs
  by_cases hp : panicked = true
  · simp [hp] at hs
  · simp only [hp, if_false] at hs
    have hp' : panicked = false := by simpa using hp
    subst hp'
    cases a with
    | main =>
      cases main with
      | addWg =>
        simp [stepMain] at hs
        subst hs
        simp [measure, MainPc.weight]
      | spawning k =>
        by_cases hlt : k < ids.length
        · simp [stepMain, hlt] at hs
          subst hs
          simp [measure, MainPc.weight, unitsWeight_append, UnitPc.weight]
          omega
        · simp [stepMain, hlt] at hs
          subst hs
          simp [measure, MainPc.weight, watcherWeight]
          have : ids.length - k = 0 := by omega
          rw [this]
          omega
      | draining =>
        by_cases hc : closed = true
        · simp [stepMain, hc] at hs
          subst hs
          simp [measure, MainPc.weight]
        · simp [stepMain, hc] at hs
      | returned => simp [stepMain] at hs
    | watcher =>
      cases watcher with
      | none => simp [stepWatcher] at hs
      | some w =>
        cases w with
        | waiting =>
          by_cases hz : wg = 0
          · simp [stepWatcher, hz] at hs
            subst hs
            simp [measure, watcherWeight]
          · simp [stepWatcher, hz] at hs
        | closing =>
          by_cases hc : closed = true
          · simp [stepWatcher, hc] at hs
            subst hs
            simp [measure]
          · simp [stepWatcher, hc] at hs
            subst hs
            simp [measure, watcherWeight]
        | done => simp [stepWatcher] at hs
    | unit i =>
      cases hu : units[i]? with
      | none => simp [stepUnit, hu] at hs
      | some pc =>
        cases pc with
        | fetching =>
          simp [stepUnit, hu] at hs
          subst hs
          have h1 := weight_set (afterFetch (fetch i (ids[i]?.getD 0))) hu
          have h2 := afterFetch_weight (fetch i (ids[i]?.getD 0))
          have h3 : UnitPc.fetching.weight = 3 := rfl
          simp only [measure, Bool.false_eq_true, if_false]
          omega
        | sending f =>
          by_cases hc : closed = true
          · simp [stepUnit, hu, hc] at hs
            subst hs
            simp [measure]
          · by_cases hm : main = .draining
            · subst hm
              simp [stepUnit, hu, hc] at hs
              subst hs
              have h1 := weight_set .exiting hu
              have h3 : (UnitPc.sending f).weight = 2 := rfl
              have h4 : UnitPc.exiting.weight = 1 := rfl
              simp only [measure, Bool.false_eq_true, if_false]
              omega
            · simp [stepUnit, hu, hc, hm] at hs
        | exiting =>
          by_cases hz : wg = 0
          · simp [stepUnit, hu, hz] at hs
            subst hs
            simp [measure]
          · simp [stepUnit, hu, hz] at hs
            subst hs
            have h1 := weight_set .finished hu
            have h3 : UnitPc.finished.weight = 0 := rfl
            have h4 : UnitPc.exiting.weight = 1 := rfl
            simp only [measure, Bool.false_eq_true, if_false]
            omega
        | finished => simp [stepUnit, hu] at hs

theorem measure_run {s s' : State} {sched : List Action}
    (hs : run ids fetch s sched = some s') :
    measure ids s' + sched.length ≤ measure ids s := by
  induction sched generalizing s with
  | nil =>
    simp [run] at hs
    subst hs
    simp
  | cons a as ih =>
    simp only [run] at hs
    cases hstep : step ids fetch s a with
    | none => simp [hstep] at hs
    | some s1 =>
      simp only [hstep] at hs
      have h1 := ih hs
      have h2 := measure_step hstep
      simp only [List.length_cons]
      omega

theorem measure_init (ids : List Int) : measure ids init = 4 * ids.length + 6 := by
  simp [measure, init, MainPc.weight, watcherWeight, unitsWeight]
  omega

theorem step_enabled {s : State} (h : Inv ids fetch s) (hm : s.main ≠ .returned) :
    ∃ a s', step ids fetch s a = some s' := by
  obtain ⟨main, wg, units, watcher, closed, acc, panicked⟩ := s
  obtain ⟨h1, h2, h3, h4, h5, h6, h7, h8, h9, h10, h11⟩ := h
  simp only at h1 h2 h3 h4 h5 h6 h7 h8 h9 h10 h11 hm
  subst h1
  cases main with
  | addWg => exact ⟨.main, _, by simp [step, stepMain]; rfl⟩
  | spawning k =>
    by_cases hlt : k < ids.length
    · exact ⟨.main, _, by simp [step, stepMain, hlt]; rfl⟩
    · exact ⟨.main, _, by simp [step, stepMain, hlt]; rfl⟩
  | returned => exact absurd rfl hm
  | draining =>
    by_cases hc : closed = true
    · exact ⟨.main, _, by simp [step, stepMain, hc]; rfl⟩
    · have hc' : closed = false := by simpa using hc
      obtain ⟨hlen, hw⟩ := h7 (Or.inl rfl)
      have hwg := h5 (by simp)
      cases watcher with
      | none => exact absurd rfl hw
      | some w =>
        cases w with
        | done => exact absurd rfl (h9 hc').1
        | closing => exact ⟨.watcher, _, by simp [step, stepWatcher, hc']; rfl⟩
        | waiting =>
          by_cases hz : wg = 0
          · exact ⟨.watcher, _, by simp [step, stepWatcher, hz]; rfl⟩
          · obtain ⟨j, u, hj, hu⟩ := exists_unfinished ids (by omega) hlen
            cases u with
            | finished => exact absurd rfl hu
            | fetching => exact ⟨.unit j, _, by simp [step, stepUnit, hj]; rfl⟩
            | sending f => exact ⟨.unit j, _, by simp [step, stepUnit, hj, hc']; rfl⟩
            | exiting => exact ⟨.unit j, _, by simp [step, stepUnit, hj, hz]; rfl⟩

theorem exists_returning {s : State} (h : Inv ids fetch s) :
    ∃ sched s', run ids fetch s sched = some s' ∧ s'.main = .returned := by
  generalize hn : measure ids s = n
  induction n using Nat.strong_induction_on generalizing s with
  | _ n ih =>
    by_cases hm : s.main = .returned
    · exact ⟨[], s, rfl, hm⟩
    · obtain ⟨a, s1, hstep⟩ := step_enabled h hm
      have hlt := measure_step hstep
      obtain ⟨sched, s', hrun, hret⟩ := ih (measure ids s1) (by omega) (inv_step h hstep) rfl
      exact ⟨a :: sched, s', by simp [run, hstep, hrun], hret⟩

theorem acc_step {s s' : State} {a : Action} (hs : step ids fetch s a = some s') :
    ∃ t, s'.acc = s.acc ++ t := by
  obtain ⟨main, wg, units, watcher, closed, acc, panicked⟩ := s
  unfold step at hs
  by_cases hp : panicked = true
  · simp [hp] at hs
  · simp only [hp, if_false] at hs
    cases a with
    | main =>
      cases main with
      | addWg => simp [stepMain] at hs; subst hs; exact ⟨[], by simp⟩
      | spawning k =>
        by_cases hlt : k < ids.length <;> simp [stepMain, hlt] at hs <;> subst hs <;>
          exact ⟨[], by simp⟩
      | draining =>
        by_cases hc : closed = true <;> simp [stepMain, hc] at hs
        subst hs; exact ⟨[], by simp⟩
      | returned => simp [stepMain] at hs
    | watcher =>
      cases watcher with
      | none => simp [stepWatcher] at hs
      | some w =>
        cases w with
        | waiting =>
          by_cases hz : wg = 0 <;> simp [stepWatcher, hz] at hs
          subst hs; exact ⟨[], by simp⟩
        | closing =>
          by_cases hc : closed = true <;> simp [stepWatcher, hc] at hs <;> subst hs <;>
            exact ⟨[], by simp⟩
        | done => simp [stepWatcher] at hs
    | unit i =>
      cases hu : units[i]? with
      | none => simp [stepUnit, hu] at hs
      | some pc =>
        cases pc with
        | fetching => simp [stepUnit, hu] at hs; subst hs; exact ⟨[], by simp⟩
        | sending f =>
          by_cases hc : closed = true
          · simp [stepUnit, hu, hc] at hs; subst hs; exact ⟨[], by simp⟩
          · by_cases hm : main = .draining
            · simp [stepUnit, hu, hc, hm] at hs; subst hs; exact ⟨[f], by simp⟩
            · simp [stepUnit, hu, hc, hm] at hs
        | exiting =>
          by_cases hz : wg = 0 <;> simp [stepUnit, hu, hz] at hs <;> subst hs <;>
            exact ⟨[], by simp⟩
        | finished => simp [stepUnit, hu] at hs

theorem acc_run {s s' : State} {sched : List Action}
    (hs : run ids fetch s sched = some s') : ∃ t, s'.acc = s.acc ++ t := by
  induction sched generalizing s with
  | nil =>
    simp [run] at hs
    subst hs
    exact ⟨[], by simp⟩
  | cons a as ih =>
    simp only [run] at hs
    cases hstep : step ids fetch s a with
    | none => simp [hstep] at hs
    | some s1 =>
      simp only [hstep] at hs
      obtain ⟨t1, h1⟩ := acc_step hstep
      obtain ⟨t2, h2⟩ := ih hs
      exact ⟨t1 ++ t2, by rw [h2, h1, List.append_assoc]⟩

theorem send_step {s s' : State} {i : Nat} {f : Formatted} (h : Inv ids fetch s)
    (hu : s.units[i]? = some (.sending f)) (hs : step ids fetch s (.unit i) = some s') :
    s'.acc = s.acc ++ [f] := by
  have hinv := inv_step h hs
  obtain ⟨main, wg, units, watcher, closed, acc, panicked⟩ := s
  simp only at hu
  have hp : panicked = false := h.notPanicked
  subst hp
  unfold step at hs
  simp only [Bool.false_eq_true, if_false] at hs
  by_cases hc : closed = true
  · simp [stepUnit, hu, hc] at hs
    subst hs
    have := hinv.notPanicked
    simp at this
  · by_cases hm : main = .draining
    · simp [stepUnit, hu, hc, hm] at hs
      subst hs
      rfl
    · simp [stepUnit, hu, hc, hm] at hs

theorem successesFrom_length_le (ids : List Int) (i : Nat) :
    (successesFrom fetch i ids).length ≤ ids.length := by
  induction ids generalizing i with
  | nil => simp [successesFrom]
  | cons id ids ih =>
    have h1 := ih (i + 1)
    have h2 : (outcome (fetch i id)).length ≤ 1 := by
      cases hr : fetch i id with
      | failed => simp [outcome]
      | resp r => by_cases h : r.decodeErr = true <;> simp [outcome, h]
    simp only [successesFrom, List.length_append, List.length_cons]
    omega

theorem successesFrom_length_eq (ids : List Int) (i : Nat)
    (hall : ∀ j id, ids[j]? = some id →
      ∃ r, fetch (i + j) id = .resp r ∧ r.decodeErr = false) :
    (successesFrom fetch i ids).length = ids.length := by
  induction ids generalizing i with
  | nil => simp [successesFrom]
  | cons id ids ih =>
    obtain ⟨r, hr, hd⟩ := hall 0 id (by simp)
    have h1 := ih (i + 1) (fun j id' hj => by
      have := hall (j + 1) id' (by simpa using hj)
      rwa [show i + (j + 1) = i + 1 + j by omega] at this)
    simp only [Nat.add_zero] at hr
    simp [successesFrom, hr, outcome, hd, h1]

theorem returned_perm {s : State} (hinv : Inv ids fetch s) (hret : s.main = .returned) :
    s.acc.Perm (successes ids fetch) := by
  have hclosed : s.closed = true := by
    by_contra hc
    exact (hinv.open_ (by simpa using hc)).2 hret
  have hwg : s.wg = 0 := (hinv.closed_ hclosed).2
  have hlive : live ids s.units = 0 := by
    rw [← hinv.counter (by rw [hret]; simp)]
    exact hwg
  have := hinv.account
  rwa [pending_nil_of_live_zero ids 0 hlive, List.append_nil] at this

end Engine

/-- What `getHackerNews` returns is a permutation of the successes of the
identifiers it took from the list. -/
theorem getHackerNews_returns_successes (w : World) (sched : List Engine.Action)
    (ids : List Int) (l : List Formatted) (hids : hnTopItems w = .ok (some ids))
    (h : getHackerNews w sched = .ok (some l)) :
    l.Perm (Engine.successes ids (fun i id => w.hnItem i (hackerNewsItemUrl id))) := by
  unfold getHackerNews at h
  simp only [hids] at h
  cases hrun : Engine.run ids (fun i id => w.hnItem i (hackerNewsItemUrl id))
      Engine.init sched with
  | none => simp [hrun] at h
  | some s =>
    simp only [hrun] at h
    have hinv := Engine.inv_run (Engine.inv_init ids _) hrun
    by_cases hp : s.panicked = true
    · simp [hp] at h
    · by_cases hm : s.main = .returned
      · simp [hp, hm] at h
        subst h
        exact Engine.returned_perm hinv hm
      · simp [hp, hm] at h

/-- C1: for every identifier list and every assignment of outcomes to the
individual fetches, the engine of `getHackerNews` can run to its return, and
whenever it has returned the list it returns is, up to order, exactly the
formatted records of the identifiers whose fetch and decode succeeded, one
per occurrence of the identifier; so it has at most as many elements as
there are identifiers, and exactly as many when every fetch succeeds. -/
theorem getHackerNews_collects_exactly_the_successes (ids : List Int)
    (fetch : Nat → Int → GetResult HackerNewsItem) :
    (∃ sched s, Engine.run ids fetch Engine.init sched = some s ∧ s.main = .returned) ∧
    ∀ sched s, Engine.run ids fetch Engine.init sched = some s → s.main = .returned →
      s.acc.Perm (Engine.successes ids fetch) ∧
      s.acc.length ≤ ids.length ∧
      ((∀ j id, ids[j]? = some id → ∃ r, fetch j id = .resp r ∧ r.decodeErr = false) →
        s.acc.length = ids.length) := by
  refine ⟨Engine.exists_returning (Engine.inv_init ids fetch), ?_⟩
  intro sched s hrun hret
  have hinv := Engine.inv_run (Engine.inv_init ids fetch) hrun
  have hperm : s.acc.Perm (Engine.successes ids fetch) := Engine.returned_perm hinv hret
  refine ⟨hperm, ?_, ?_⟩
  · rw [hperm.length_eq]
    exact Engine.successesFrom_length_le ids 0
  · intro hall
    rw [hperm.length_eq]
    exact Engine.successesFrom_length_eq ids 0 (fun j id hj => by simpa using hall j id hj)

/-- Witness for C1: identifiers 1..5 with the fetches of 2 and 4 failing give
exactly the three records for 1, 3 and 5. -/
theorem getHackerNews_collects_exactly_the_successes_witness :
    Engine.run Engine.exampleIds Engine.exampleFetch Engine.init Engine.exampleSchedule
        = some Engine.exampleFinal ∧
    Engine.exampleFinal.main = .returned ∧
    Engine.successes Engine.exampleIds Engine.exampleFetch
      = [{ Body := "Title: one\nUrl: u1" }, { Body := "Title: three\nUrl: u3" },
         { Body := "Title: five\nUrl: u5" }] ∧
    Engine.exampleFinal.acc.Perm (Engine.successes Engine.exampleIds Engine.exampleFetch) ∧
    Engine.exampleFinal.acc.length ≤ Engine.exampleIds.length :=
  ⟨by decide, rfl, by decide,
    ((getHackerNews_collects_exactly_the_successes Engine.exampleIds Engine.exampleFetch).2
      Engine.exampleSchedule Engine.exampleFinal (by decide) rfl).1,
    ((getHackerNews_collects_exactly_the_successes Engine.exampleIds Engine.exampleFetch).2
      Engine.exampleSchedule Engine.exampleFinal (by decide) rfl).2.1⟩

namespace Engine

variable {ids : List Int} {fetch : Nat → Int → GetResult HackerNewsItem}

theorem closed_all_finished {s : State} (h : Inv ids fetch s) (hc : s.closed = true) :
    s.wg = 0 ∧ s.units.length = ids.length ∧ ∀ u ∈ s.units, u = .finished := by
  obtain ⟨hw, hwg⟩ := h.closed_ hc
  have hmain : s.main = .draining ∨ s.main = .returned := by
    cases hm : s.main with
    | addWg =>
      have := h.noWatcher (Or.inl hm)
      rw [hw] at this
      simp at this
    | spawning k =>
      have := h.noWatcher (Or.inr ⟨k, hm⟩)
      rw [hw] at this
      simp at this
    | draining => exact Or.inl rfl
    | returned => exact Or.inr rfl
  have hlen := (h.allLaunched hmain).1
  have hna : s.main ≠ .addWg := by
    rcases hmain with hm | hm <;> rw [hm] <;> simp
  have hlive : live ids s.units = 0 := by
    rw [← h.counter hna]
    exact hwg
  exact ⟨hwg, hlen, all_finished_of_live_zero ids hlive hlen⟩

theorem wg_stepUnit {s s' : State} {i : Nat} (hs : step ids fetch s (.unit i) = some s') :
    (s'.units[i]? = some .finished ∧ s'.panicked = false ∧ s'.wg + 1 = s.wg) ∨
    (s'.units[i]? ≠ some .finished ∧ s'.wg = s.wg) := by
  obtain ⟨main, wg, units, watcher, closed, acc, panicked⟩ := s
  unfold step at hs
  by_cases hp : panicked = true
  · simp [hp] at hs
  · simp only [hp, if_false] at hs
    have hp' : panicked = false := by simpa using hp
    cases hu : units[i]? with
    | none => simp [stepUnit, hu] at hs
    | some pc =>
      have hi : i < units.length := by
        by_contra hge
        rw [List.getElem?_eq_none (by omega)] at hu
        simp at hu
      cases pc with
      | fetching =>
        simp [stepUnit, hu] at hs
        subst hs
        right
        simp [hi, afterFetch_ne_finished]
      | sending f =>
        by_cases hc : closed = true
        · simp [stepUnit, hu, hc] at hs
          subst hs
          right
          simp [hu]
        · by_cases hm : main = .draining
          · simp [stepUnit, hu, hc, hm] at hs
            subst hs
            right
            simp [hi]
          · simp [stepUnit, hu, hc, hm] at hs
      | exiting =>
        by_cases hz : wg = 0
        · simp [stepUnit, hu, hz] at hs
          subst hs
          right
          simp [hu]
          exact hz.symm
        · simp [stepUnit, hu, hz] at hs
          subst hs
          left
          simp [hi, hp']
          omega
      | finished => simp [stepUnit, hu] at hs

theorem published_kept {s sfin : State} {i : Nat} {f : Formatted} {rest : List Action}
    (h : Inv ids fetch s) (hu : s.units[i]? = some (.sending f))
    (hs : run ids fetch s (.unit i :: rest) = some sfin) : f ∈ sfin.acc := by
  simp only [run] at hs
  cases hstep : step ids fetch s (.unit i) with
  | none => simp [hstep] at hs
  | some s1 =>
    simp only [hstep] at hs
    have h1 := send_step h hu hstep
    obtain ⟨t, ht⟩ := acc_run hs
    rw [ht, h1]
    simp

end Engine

/-- C2: the engine of `getHackerNews` never blocks indefinitely.  For every
identifier list (the empty one included) and every outcome of every fetch
(all failing included), every state reached by any interleaving has not
panicked, is reached after at most `4 * N + 6` steps, has an enabled step
unless the caller has already returned (in particular whenever the channel
is still open), and can be continued to a state in which the channel is
closed and the caller has returned. -/
theorem getHackerNews_engine_never_blocks (ids : List Int)
    (fetch : Nat → Int → GetResult HackerNewsItem) (sched : List Engine.Action)
    (s : Engine.State) (h : Engine.run ids fetch Engine.init sched = some s) :
    s.panicked = false ∧
    sched.length ≤ 4 * ids.length + 6 ∧
    (s.main ≠ .returned → ∃ a s', Engine.step ids fetch s a = some s') ∧
    (s.closed = false → ∃ a s', Engine.step ids fetch s a = some s') ∧
    (∃ rest sfin, Engine.run ids fetch s rest = some sfin ∧ sfin.main = .returned ∧
      sfin.closed = true ∧ sfin.panicked = false) := by
  have hinv := Engine.inv_run (Engine.inv_init ids fetch) h
  have hlen := Engine.measure_run h
  rw [Engine.measure_init] at hlen
  refine ⟨hinv.notPanicked, by omega, Engine.step_enabled hinv,
    fun hc => Engine.step_enabled hinv (hinv.open_ hc).2, ?_⟩
  obtain ⟨rest, sfin, hrun, hret⟩ := Engine.exists_returning hinv
  have hinv' := Engine.inv_run hinv hrun
  refine ⟨rest, sfin, hrun, hret, ?_, hinv'.notPanicked⟩
  by_contra hc
  exact (hinv'.open_ (by simpa using hc)).2 hret

/-- Witness for C2: two identifiers whose fetches both fail, stopped while
the caller waits in the `range` loop with one goroutine still to report. -/
theorem getHackerNews_engine_never_blocks_witness :
    Engine.run [7, 8] Engine.allFail Engine.init Engine.stalledSchedule
        = some Engine.stalledState ∧
    (Engine.stalledState.panicked = false ∧
    Engine.stalledSchedule.length ≤ 4 * [(7 : Int), 8].length + 6 ∧
    (Engine.stalledState.main ≠ .returned →
      ∃ a s', Engine.step [7, 8] Engine.allFail Engine.stalledState a = some s') ∧
    (Engine.stalledState.closed = false →
      ∃ a s', Engine.step [7, 8] Engine.allFail Engine.stalledState a = some s') ∧
    (∃ rest sfin, Engine.run [7, 8] Engine.allFail Engine.stalledState rest = some sfin ∧
      sfin.main = .returned ∧ sfin.closed = true ∧ sfin.panicked = false)) :=
  ⟨by decide,
    getHackerNews_engine_never_blocks [7, 8] Engine.allFail Engine.stalledSchedule
      Engine.stalledState (by decide)⟩

/-- C3: the engine never returns partial results while fetches are
outstanding.  In every reachable state: no fetch goroutine exists before
`wg.Add` has run; from then on the counter equals the number of fetch
goroutines (launched or still to be launched) that have not finished; a step
of a fetch goroutine lowers the counter by exactly one when it is the step
that finishes the goroutine and leaves it unchanged otherwise; the channel is
closed only when the counter is zero and all goroutines are launched and
finished; the caller has returned only if the channel is closed; and an item
a goroutine publishes is in the accumulated list of every later state. -/
theorem getHackerNews_engine_returns_only_when_all_done (ids : List Int)
    (fetch : Nat → Int → GetResult HackerNewsItem) (sched : List Engine.Action)
    (s : Engine.State) (h : Engine.run ids fetch Engine.init sched = some s) :
    (s.main = .addWg → s.units = [] ∧ s.wg = 0) ∧
    (s.main ≠ .addWg → s.wg = Engine.live ids s.units) ∧
    (∀ i s', Engine.step ids fetch s (.unit i) = some s' →
      (s'.units[i]? = some .finished ∧ s'.panicked = false ∧ s'.wg + 1 = s.wg) ∨
      (s'.units[i]? ≠ some .finished ∧ s'.wg = s.wg)) ∧
    (s.closed = true →
      s.wg = 0 ∧ s.units.length = ids.length ∧ ∀ u ∈ s.units, u = .finished) ∧
    (s.main = .returned → s.closed = true) ∧
    (∀ i f rest sfin, s.units[i]? = some (.sending f) →
      Engine.run ids fetch s (.unit i :: rest) = some sfin → f ∈ sfin.acc) := by
  have hinv := Engine.inv_run (Engine.inv_init ids fetch) h
  refine ⟨fun hm => ⟨(hinv.beforeAdd hm).2, (hinv.beforeAdd hm).1⟩, hinv.counter,
    fun i s' hs => Engine.wg_stepUnit hs, Engine.closed_all_finished hinv, ?_,
    fun i f rest sfin hu hs => Engine.published_kept hinv hu hs⟩
  intro hret
  by_contra hc
  exact (hinv.open_ (by simpa using hc)).2 hret

/-- Witness for C3: one identifier whose fetch succeeded, stopped with the
goroutine blocked on its send; the counter is 1, the channel is open, and the
item is in the list once the goroutine has been served. -/
theorem getHackerNews_engine_returns_only_when_all_done_witness :
    Engine.run [1] Engine.exampleFetch Engine.init Engine.sendingSchedule
        = some Engine.sendingState ∧
    Engine.sendingState.wg = 1 ∧
    (Engine.sendingState.main ≠ .addWg →
      Engine.sendingState.wg = Engine.live [1] Engine.sendingState.units) ∧
    (Engine.sendingState.main = .returned → Engine.sendingState.closed = true) :=
  ⟨by decide, rfl,
    (getHackerNews_engine_returns_only_when_all_done [1] Engine.exampleFetch
      Engine.sendingSchedule Engine.sendingState (by decide)).2.1,
    (getHackerNews_engine_returns_only_when_all_done [1] Engine.exampleFetch
      Engine.sendingSchedule Engine.sendingState (by decide)).2.2.2.2.1⟩

theorem healthy_WriteString (f : File) (s : String) (h : f.healthy = true) :
    (f.WriteString s).content = f.content ++ s ∧ (f.WriteString s).healthy = true := by
  obtain ⟨content, outcomes⟩ := f
  cases outcomes with
  | nil => exact ⟨rfl, rfl⟩
  | cons o rest =>
    cases o with
    | ok => exact ⟨rfl, by simpa [File.healthy, allOk] using h⟩
    | failed n => simp [File.healthy, allOk] at h

theorem foldl_write (f : File) (items : List Formatted) (h : f.healthy = true) :
    (items.foldl (fun f item => (f.WriteString item.Body).WriteString "\n\n") f).content
      = f.content ++ itemsText items := by
  induction items generalizing f with
  | nil => simp [itemsText]
  | cons item rest ih =>
    obtain ⟨c1, h1⟩ := healthy_WriteString f item.Body h
    obtain ⟨c2, h2⟩ := healthy_WriteString (f.WriteString item.Body) "\n\n" h1
    rw [List.foldl_cons, ih _ h2, c2, c1, itemsText]
    simp only [String.append_assoc]

theorem heading_eq (sectionName : String) :
    heading sectionName
      = "\n\n" ++ rule37 ++ "\n" ++ sectionName ++ "\n" ++ rule37 ++ "\n\n" := by
  have h1 : "\n\n=====================================\n" = "\n\n" ++ rule37 ++ "\n" := by
    decide
  have h2 : "\n=====================================\n\n" = "\n" ++ rule37 ++ "\n\n" := by
    decide
  unfold heading
  rw [h1, h2]
  simp only [String.append_assoc]

/-- Counterexample to C7 as stated: on a file whose writes fail (the errors
of `WriteString` are discarded) `writeSection` appends nothing, neither the
heading nor the item, and still reports one item; so the appended text is not
for every file the heading followed by the items. -/
theorem writeSection_failed_write :
    writeSection failingFile "Hacker News" [{ Body := "Title: a\nUrl: b" }]
      = ({ content := "", outcomes := [] }, "wrote 1 Hacker News items\n") ∧
    ¬ (∀ (f : File) (sectionName : String) (items : List Formatted),
        (writeSection f sectionName items).1.content
          = f.content ++ (heading sectionName ++ itemsText items)) := by
  refine ⟨by decide, ?_⟩
  intro h
  exact absurd (h failingFile "Hacker News" [{ Body := "Title: a\nUrl: b" }]) (by decide)

/-- C7, amended: for every section name and every list of items, provided
every `WriteString` on the file succeeds, the text `writeSection` appends to
the file is the heading (two newlines, a line of 37 `=`, the section name, a
second line of 37 `=`, a blank line) followed by, for each item in input
order, its body and a blank line, and an empty list yields the heading only;
the body of a formatted record is `Title: <title>`, a newline, `Url: <url>`;
the count it reports is the length of the item list, 0 for the empty list. -/
theorem writeSection_appends_heading_and_items (f : File) (sectionName : String)
    (items : List Formatted) :
    (f.healthy = true →
      (writeSection f sectionName items).1.content
        = f.content ++ ("\n\n" ++ rule37 ++ "\n" ++ sectionName ++ "\n" ++ rule37 ++ "\n\n"
            ++ itemsText items) ∧
      (writeSection f sectionName items).1.healthy = true) ∧
    rule37.length = 37 ∧ (∀ c ∈ rule37.data, c = '=') ∧
    (∀ h : HackerNewsItem,
      h.getFormatted.Body = "Title: " ++ h.Title ++ "\nUrl: " ++ h.Url) ∧
    (writeSection f sectionName items).2
      = "wrote " ++ toString items.length ++ " " ++ sectionName ++ " items\n" ∧
    (f.healthy = true →
      (writeSection f sectionName []).1.content
        = f.content ++ ("\n\n" ++ rule37 ++ "\n" ++ sectionName ++ "\n" ++ rule37 ++ "\n\n")) ∧
    (writeSection f sectionName []).2 = "wrote 0 " ++ sectionName ++ " items\n" := by
  refine ⟨?_, by decide, by decide, fun h => rfl, rfl, ?_, ?_⟩
  · intro hf
    obtain ⟨c1, h1⟩ := healthy_WriteString f (heading sectionName) hf
    constructor
    · show (List.foldl (fun f item => (f.WriteString item.Body).WriteString "\n\n")
          (f.WriteString (heading sectionName)) items).content = _
      rw [foldl_write _ _ h1, c1, heading_eq]
      simp only [String.append_assoc]
    · show (List.foldl (fun f item => (f.WriteString item.Body).WriteString "\n\n")
          (f.WriteString (heading sectionName)) items).healthy = true
      clear c1
      generalize f.WriteString (heading sectionName) = g at h1
      induction items generalizing g with
      | nil => exact h1
      | cons item rest ih =>
        rw [List.foldl_cons]
        exact ih _ (healthy_WriteString _ "\n\n" (healthy_WriteString g item.Body h1).2).2
  · intro hf
    obtain ⟨c1, _⟩ := healthy_WriteString f (heading sectionName) hf
    show (f.WriteString (heading sectionName)).content = _
    rw [c1, heading_eq]
  · simp only [writeSection, List.length_nil, String.append_assoc]
    rfl

/-- Witness for C7: one item written after an earlier section to a file on
which every write succeeds. -/
theorem writeSection_appends_heading_and_items_witness :
    healthyFile.healthy = true ∧
    (writeSection healthyFile "Hacker News" [{ Body := "Title: a\nUrl: b" }]).1.content
      = healthyFile.content ++ ("\n\n" ++ rule37 ++ "\n" ++ "Hacker News" ++ "\n" ++ rule37
          ++ "\n\n" ++ itemsText [{ Body := "Title: a\nUrl: b" }]) ∧
    (writeSection healthyFile "Hacker News" [{ Body := "Title: a\nUrl: b" }]).2
      = "wrote 1 Hacker News items\n" :=
  ⟨by decide,
    ((writeSection_appends_heading_and_items healthyFile "Hacker News"
      [{ Body := "Title: a\nUrl: b" }]).1 (by decide)).1,
    by decide⟩

theorem newline_split {t t' r r' : List Char} (ht : '\n' ∉ t) (ht' : '\n' ∉ t')
    (h : t ++ '\n' :: r = t' ++ '\n' :: r') : t = t' ∧ r = r' := by
  induction t generalizing t' with
  | nil =>
    cases t' with
    | nil => simpa using h
    | cons c cs =>
      simp at h
      simp [← h.1] at ht'
  | cons c cs ih =>
    cases t' with
    | nil =>
      simp at h
      simp [h.1] at ht
    | cons c' cs' =>
      simp at h ht ht'
      obtain ⟨hc, hrest⟩ := h
      obtain ⟨h1, h2⟩ := ih (by simpa using ht.2) (by simpa using ht'.2) hrest
      exact ⟨by rw [hc, h1], h2⟩

theorem body_injective {t u t' u' : String} (ht : '\n' ∉ t.data) (ht' : '\n' ∉ t'.data)
    (h : "Title: " ++ t ++ "\nUrl: " ++ u = "Title: " ++ t' ++ "\nUrl: " ++ u') :
    t = t' ∧ u = u' := by
  have hd := congrArg String.data h
  simp only [String.data_append, List.append_assoc] at hd
  have h1 := List.append_cancel_left hd
  simp only [List.cons_append, List.nil_append] at h1
  obtain ⟨e1, e2⟩ := newline_split ht ht' h1
  simp only [List.cons.injEq, true_and] at e2
  exact ⟨String.ext e1, String.ext e2⟩

/-- C10: the three `getFormatted` methods compute the same function
`Title: <title>`, newline, `Url: <url>`; on records whose title contains no
newline it is injective (equal bodies come from equal titles and equal urls);
without that restriction it is not: the records with title `a\nUrl: b`, url
`c` and with title `a`, url `b\nUrl: c` have the same body. -/
theorem getFormatted_same_and_injective_without_newline :
    (∀ t u : String,
      (HackerNewsItem.mk t u).getFormatted = { Body := "Title: " ++ t ++ "\nUrl: " ++ u } ∧
      (RedditItem.mk t u).getFormatted = (HackerNewsItem.mk t u).getFormatted ∧
      (NytItem.mk t u).getFormatted = (HackerNewsItem.mk t u).getFormatted) ∧
    (∀ a b : HackerNewsItem, '\n' ∉ a.Title.data → '\n' ∉ b.Title.data →
      a.getFormatted = b.getFormatted → a = b) ∧
    (∀ a b : RedditItem, '\n' ∉ a.Title.data → '\n' ∉ b.Title.data →
      a.getFormatted = b.getFormatted → a = b) ∧
    (∀ a b : NytItem, '\n' ∉ a.Title.data → '\n' ∉ b.Title.data →
      a.getFormatted = b.getFormatted → a = b) ∧
    ((HackerNewsItem.mk "a\nUrl: b" "c").getFormatted
        = (HackerNewsItem.mk "a" "b\nUrl: c").getFormatted ∧
      HackerNewsItem.mk "a\nUrl: b" "c" ≠ HackerNewsItem.mk "a" "b\nUrl: c") := by
  refine ⟨fun t u => ⟨rfl, rfl, rfl⟩, ?_, ?_, ?_, by decide, by decide⟩
  · rintro ⟨t, u⟩ ⟨t', u'⟩ ht ht' h
    obtain ⟨e1, e2⟩ := body_injective ht ht' (congrArg Formatted.Body h)
    simp only at e1 e2
    rw [e1, e2]
  · rintro ⟨t, u⟩ ⟨t', u'⟩ ht ht' h
    obtain ⟨e1, e2⟩ := body_injective ht ht' (congrArg Formatted.Body h)
    simp only at e1 e2
    rw [e1, e2]
  · rintro ⟨t, u⟩ ⟨t', u'⟩ ht ht' h
    obtain ⟨e1, e2⟩ := body_injective ht ht' (congrArg Formatted.Body h)
    simp only at e1 e2
    rw [e1, e2]

/-- Witness for C10: two Hacker News records without a newline in the title
and with the same body are the same record. -/
theorem getFormatted_same_and_injective_without_newline_witness :
    '\n' ∉ "Go 1.8".data ∧
    (HackerNewsItem.mk "Go 1.8" "https://golang.org").getFormatted
      = { Body := "Title: Go 1.8\nUrl: https://golang.org" } ∧
    HackerNewsItem.mk "Go 1.8" "https://golang.org"
      = HackerNewsItem.mk "Go 1.8" "https://golang.org" :=
  ⟨by decide, by decide,
    getFormatted_same_and_injective_without_newline.2.1
      (HackerNewsItem.mk "Go 1.8" "https://golang.org")
      (HackerNewsItem.mk "Go 1.8" "https://golang.org") (by decide) (by decide) rfl⟩

/-- C8: in every environment in which `REDDIT_USERNAME` is absent or empty
`getRedditGolang` returns an empty list without requesting anything and
without panicking, and likewise `getNyt` when `NYT_API_KEY` is absent or
empty, whatever the remote endpoints would have answered. -/
theorem missing_credential_disables_source (w : World) :
    (w.getenv "REDDIT_USERNAME" = "" →
      (getRedditGolang w).result = .ok [] ∧ (getRedditGolang w).requests = []) ∧
    (w.getenv "NYT_API_KEY" = "" →
      (getNyt w).result = .ok [] ∧ (getNyt w).requests = []) := by
  constructor
  · intro h
    simp [getRedditGolang, h]
  · intro h
    simp [getNyt, h]

/-- Witness for C8: an environment without credentials whose endpoints would
answer with one item each. -/
theorem missing_credential_disables_source_witness :
    noCredentialWorld.getenv "REDDIT_USERNAME" = "" ∧
    noCredentialWorld.getenv "NYT_API_KEY" = "" ∧
    ((getRedditGolang noCredentialWorld).result = .ok [] ∧
      (getRedditGolang noCredentialWorld).requests = []) ∧
    ((getNyt noCredentialWorld).result = .ok [] ∧
      (getNyt noCredentialWorld).requests = []) :=
  ⟨rfl, rfl, (missing_credential_disables_source noCredentialWorld).1 rfl,
    (missing_credential_disables_source noCredentialWorld).2 rfl⟩

theorem set_at_length {α : Type} (pre : List α) (x v : α) (suf : List α) :
    (pre ++ x :: suf).set pre.length v = pre ++ v :: suf := by
  induction pre with
  | nil => rfl
  | cons p ps ih => simp [ih]

theorem assign_at_length {α : Type} (pre : List α) (x v : α) (suf : List α) :
    assign (pre ++ x :: suf) pre.length v = .ok (pre ++ v :: suf) := by
  simp [assign, set_at_length]

theorem assign_past_end {α : Type} (pre : List α) (v : α) :
    assign pre pre.length v = .error "index out of range" := by
  simp [assign]

theorem fillReddit_ok (children : List RedditItem) (pre suf : List Formatted)
    (h : children.length ≤ suf.length) :
    fillReddit pre.length children (pre ++ suf)
      = .ok (pre ++ children.map RedditItem.getFormatted ++ suf.drop children.length) := by
  induction children generalizing pre suf with
  | nil => simp [fillReddit]
  | cons item rest ih =>
    cases suf with
    | nil => simp at h
    | cons x suf' =>
      simp at h
      have := ih (pre ++ [item.getFormatted]) suf' h
      simp only [List.length_append, List.length_singleton, List.append_assoc,
        List.singleton_append] at this
      simp only [fillReddit, assign_at_length, this]
      simp

theorem fillReddit_error (children : List RedditItem) (pre suf : List Formatted)
    (h : suf.length < children.length) :
    fillReddit pre.length children (pre ++ suf) = .error "index out of range" := by
  induction children generalizing pre suf with
  | nil => simp at h
  | cons item rest ih =>
    cases suf with
    | nil => simp [fillReddit, assign_past_end]
    | cons x suf' =>
      simp at h
      have := ih (pre ++ [item.getFormatted]) suf' h
      simp only [List.length_append, List.length_singleton, List.append_assoc,
        List.singleton_append] at this
      simp only [fillReddit, assign_at_length, this]

/-- C9: when the user name is set and the list request is answered with
status 200 and a body that decodes to `c` children, `getRedditGolang` returns,
for `c <= itemsToFetch`, a list of length `itemsToFetch` (10), not `c`: the
formatted children in order followed by `itemsToFetch - c` items with an
empty body, and `writeSection` reports `itemsToFetch` items for it; for
`c > itemsToFetch` the assignment indexes out of range. -/
theorem getRedditGolang_pads_to_itemsToFetch (w : World) (r : Response RedditList)
    (hu : w.getenv "REDDIT_USERNAME" ≠ "")
    (hr : w.reddit golangListUrl (userAgent (w.getenv "REDDIT_USERNAME")) = .resp r)
    (hs : r.StatusCode = 200) (hd : r.decodeErr = false) :
    (r.decoded.Children.length ≤ itemsToFetch →
      (getRedditGolang w).result
        = .ok (r.decoded.Children.map RedditItem.getFormatted
            ++ List.replicate (itemsToFetch - r.decoded.Children.length) { Body := "" }) ∧
      (r.decoded.Children.map RedditItem.getFormatted
            ++ List.replicate (itemsToFetch - r.decoded.Children.length) ({ Body := "" } : Formatted)).length
        = itemsToFetch ∧
      ∀ f, (writeSection f "Reddit Golang"
          (r.decoded.Children.map RedditItem.getFormatted
            ++ List.replicate (itemsToFetch - r.decoded.Children.length) { Body := "" })).2
        = "wrote 10 Reddit Golang items\n") ∧
    (itemsToFetch < r.decoded.Children.length →
      (getRedditGolang w).result = .error "index out of range") := by
  have hres : (getRedditGolang w).result
      = fillReddit 0 r.decoded.Children (List.replicate itemsToFetch { Body := "" }) := by
    simp [getRedditGolang, hu, hr, hs, hd]
  constructor
  · intro hc
    have hlen : (r.decoded.Children.map RedditItem.getFormatted
        ++ List.replicate (itemsToFetch - r.decoded.Children.length) ({ Body := "" } : Formatted)).length
        = itemsToFetch := by
      simp
      omega
    refine ⟨?_, hlen, ?_⟩
    · rw [hres]
      have := fillReddit_ok r.decoded.Children [] (List.replicate itemsToFetch { Body := "" })
        (by simpa using hc)
      simpa using this
    · intro f
      simp only [writeSection]
      rw [hlen]
      rfl
  · intro hc
    rw [hres]
    have := fillReddit_error r.decoded.Children [] (List.replicate itemsToFetch { Body := "" })
      (by simpa using hc)
    simpa using this

/-- Witness for C9: a list with two children gives the two formatted records
followed by eight items with an empty body. -/
theorem getRedditGolang_pads_to_itemsToFetch_witness :
    twoChildrenWorld.getenv "REDDIT_USERNAME" ≠ "" ∧
    twoChildren.decoded.Children.length = 2 ∧
    (getRedditGolang twoChildrenWorld).result
      = .ok (twoChildren.decoded.Children.map RedditItem.getFormatted
          ++ List.replicate (itemsToFetch - twoChildren.decoded.Children.length)
              { Body := "" }) :=
  ⟨by decide, rfl,
    ((getRedditGolang_pads_to_itemsToFetch twoChildrenWorld twoChildren (by decide) rfl rfl
      rfl).1 (by decide)).1⟩

theorem index_lt {α : Type} (xs : List α) (i : Nat) (h : i < xs.length) :
    index xs i = .ok xs[i] := by
  simp [index, List.getElem?_eq_getElem h]

theorem index_ge {α : Type} (xs : List α) (i : Nat) (h : xs.length ≤ i) :
    index xs i = .error "index out of range" := by
  simp [index, List.getElem?_eq_none h]

theorem fillNyt_ok (results : List NytItem) (n : Nat) (pre suf : List Formatted)
    (hn : suf.length = n) (h : pre.length + n ≤ results.length) :
    fillNyt results n pre.length (pre ++ suf)
      = .ok (pre ++ ((results.drop pre.length).take n).map NytItem.getFormatted) := by
  induction n generalizing pre suf with
  | zero =>
    have : suf = [] := List.eq_nil_of_length_eq_zero hn
    simp [fillNyt, this]
  | succ n ih =>
    cases suf with
    | nil => simp at hn
    | cons x suf' =>
      simp at hn
      have hlt : pre.length < results.length := by omega
      have := ih (pre ++ [(results[pre.length]).getFormatted]) suf' hn
        (by simp only [List.length_append, List.length_singleton]; omega)
      simp only [List.length_append, List.length_singleton, List.append_assoc,
        List.singleton_append] at this
      simp only [fillNyt, index_lt results pre.length hlt, assign_at_length, this]
      rw [List.drop_eq_getElem_cons hlt, List.take_succ_cons, List.map_cons]

theorem fillNyt_error (results : List NytItem) (n : Nat) (pre suf : List Formatted)
    (hn : suf.length = n) (hpre : pre.length ≤ results.length)
    (h : results.length < pre.length + n) :
    fillNyt results n pre.length (pre ++ suf) = .error "index out of range" := by
  induction n generalizing pre suf with
  | zero => omega
  | succ n ih =>
    cases suf with
    | nil => simp at hn
    | cons x suf' =>
      simp at hn
      by_cases hlt : pre.length < results.length
      · have := ih (pre ++ [(results[pre.length]).getFormatted]) suf' hn
          (by simp only [List.length_append, List.length_singleton]; omega)
          (by simp only [List.length_append, List.length_singleton]; omega)
        simp only [List.length_append, List.length_singleton, List.append_assoc,
          List.singleton_append] at this
        simp only [fillNyt, index_lt results pre.length hlt, assign_at_length, this]
      · simp only [fillNyt, index_ge results pre.length (by omega)]

theorem nytTake_ok (results : List NytItem) (h : itemsToFetch ≤ results.length) :
    nytTake results = .ok ((results.take itemsToFetch).map NytItem.getFormatted) := by
  have := fillNyt_ok results itemsToFetch [] (List.replicate itemsToFetch { Body := "" })
    (by simp) (by simpa using h)
  simpa [nytTake] using this

theorem nytTake_error (results : List NytItem) (h : results.length < itemsToFetch) :
    nytTake results = .error "index out of range" := by
  have := fillNyt_error results itemsToFetch [] (List.replicate itemsToFetch { Body := "" })
    (by simp) (by simp) (by simpa using h)
  simpa [nytTake] using this

theorem hnTake_ok (hnl : IntSlice) (h : itemsToFetch ≤ hnl.cap) :
    hnTake hnl = .ok (hnl.array.take itemsToFetch) := by
  simp [hnTake, IntSlice.sliceTo, h, IntSlice.elems]

theorem hnTake_error (hnl : IntSlice) (h : hnl.cap < itemsToFetch) :
    hnTake hnl = .error "slice bounds out of range" := by
  have : ¬ itemsToFetch ≤ hnl.cap := by omega
  simp [hnTake, IntSlice.sliceTo, this]

/-- The bounds of the two ways of taking the top items: the counted loop of
`getNyt` is bounded by the length of the decoded list, the slice expression
of `getHackerNews` by the capacity of the decoded slice; on a list with at
least `itemsToFetch` entries both take exactly its first `itemsToFetch`
entries in list order. -/
theorem top_items_bounds :
    (∀ results : List NytItem,
      (itemsToFetch ≤ results.length →
        nytTake results = .ok ((results.take itemsToFetch).map NytItem.getFormatted)) ∧
      (results.length < itemsToFetch → nytTake results = .error "index out of range")) ∧
    (∀ hnl : IntSlice,
      (itemsToFetch ≤ hnl.cap → hnTake hnl = .ok (hnl.array.take itemsToFetch)) ∧
      (hnl.cap < itemsToFetch → hnTake hnl = .error "slice bounds out of range")) ∧
    (∀ hnl : IntSlice, hnl.WF → itemsToFetch ≤ hnl.elems.length →
      hnTake hnl = .ok (hnl.elems.take itemsToFetch)) ∧
    hnTake IntSlice.nil = .error "slice bounds out of range" ∧
    hnTake (IntSlice.ofList []) = .error "slice bounds out of range" ∧
    itemsToFetch = 10 := by
  refine ⟨fun results => ⟨nytTake_ok results, nytTake_error results⟩,
    fun hnl => ⟨hnTake_ok hnl, hnTake_error hnl⟩, ?_, rfl, rfl, rfl⟩
  intro hnl hwf hlen
  unfold IntSlice.WF IntSlice.cap at hwf
  simp only [IntSlice.elems, List.length_take] at hlen
  have hcap : itemsToFetch ≤ hnl.cap := by
    unfold IntSlice.cap
    omega
  rw [hnTake_ok hnl hcap, IntSlice.elems, List.take_take]
  congr 2
  omega

/-- C6, the code at the failing input: a decoded identifier slice with the
nine entries 1..9 in a backing array of sixteen cells is sliced by
`hnl[:itemsToFetch]` without a panic, because the bound of the slice
expression is the capacity; the identifiers taken are 1..9 and the zero cell
after them, so `getHackerNews` goes on to request `item/0.json`.  The same
nine entries with capacity nine panic, and `getNyt` panics on nine
results. -/
theorem hnTake_succeeds_on_nine_entries :
    nineOfSixteen.elems = [1, 2, 3, 4, 5, 6, 7, 8, 9] ∧
    nineOfSixteen.len = 9 ∧ nineOfSixteen.cap = 16 ∧
    hnTake nineOfSixteen = .ok [1, 2, 3, 4, 5, 6, 7, 8, 9, 0] ∧
    hnTopItems nineEntriesWorld = .ok (some [1, 2, 3, 4, 5, 6, 7, 8, 9, 0]) ∧
    hackerNewsItemUrl 0 = "https://hacker-news.firebaseio.com/v0/item/0.json" ∧
    hnTake (IntSlice.ofList [1, 2, 3, 4, 5, 6, 7, 8, 9]) = .error "slice bounds out of range" ∧
    nytTake nineResults = .error "index out of range" ∧
    ¬ (∀ hnl : IntSlice, hnl.WF →
        ((∃ ids, hnTake hnl = .ok ids) ↔ itemsToFetch ≤ hnl.elems.length)) := by
  have hwf : nineOfSixteen.WF := by unfold IntSlice.WF; decide
  refine ⟨by decide, rfl, rfl, rfl, rfl, by decide, rfl, rfl, ?_⟩
  intro h
  have h1 := (h nineOfSixteen hwf).1 ⟨_, rfl⟩
  exact absurd h1 (by decide)

/-- C4, the code at the failing input: a fetch goroutine publishes nothing
after a network failure or a decode failure, but it never looks at the status
code, so a response with a non-success status whose body decodes is
published.  In `statusWorld` the detail request of the first identifier is
answered 404 with a decodable body and `getHackerNews` returns a record built
from it. -/
theorem getHackerNews_publishes_non_success_response :
    Engine.afterFetch .failed = .exiting ∧
    (∀ r : Response HackerNewsItem, r.decodeErr = true →
      Engine.afterFetch (.resp r) = .exiting) ∧
    (∀ r : Response HackerNewsItem, r.decodeErr = false →
      Engine.afterFetch (.resp r) = .sending r.decoded.getFormatted) ∧
    statusWorld.hnItem 0 (hackerNewsItemUrl 1)
      = .resp { StatusCode := 404, decoded := { Title := "", Url := "" }, decodeErr := false } ∧
    getHackerNews statusWorld statusSchedule = .ok (some [{ Body := "Title: \nUrl: " }]) := by
  refine ⟨rfl, ?_, ?_, rfl, rfl⟩
  · intro r h
    simp [Engine.afterFetch, h]
  · intro r h
    simp [Engine.afterFetch, h]

/-- Witness for the evaluation of C4: a 500 response whose body decodes. -/
theorem getHackerNews_publishes_non_success_response_witness :
    Engine.afterFetch
        (.resp { StatusCode := 500, decoded := { Title := "t", Url := "u" }, decodeErr := false })
      = .sending { Body := "Title: t\nUrl: u" } :=
  getHackerNews_publishes_non_success_response.2.2.1
    { StatusCode := 500, decoded := { Title := "t", Url := "u" }, decodeErr := false } rfl

/-- C5, the code at the failing inputs: when the body of the Hacker News list
response does not decode, `getHackerNews` panics on the slice expression and
`main` ends there, whatever the schedule; when the New York Times answers a
non-success status with a body that decodes to no results, `getNyt` panics on
the index expression and `main` ends there. -/
theorem list_failure_aborts_run :
    undecodableListWorld.hnList hackerNewsListUrl
      = .resp { StatusCode := 200, decoded := IntSlice.nil, decodeErr := true } ∧
    (∀ sched, getHackerNews undecodableListWorld sched = .error "slice bounds out of range") ∧
    (∀ sched, main undecodableListWorld sched = .error "slice bounds out of range") ∧
    nytForbiddenWorld.nyt (nytUrl "k")
      = .resp { StatusCode := 403, decoded := { Results := [] }, decodeErr := false } ∧
    (getNyt nytForbiddenWorld).result = .error "index out of range" ∧
    (∀ sched, main nytForbiddenWorld sched = .error "index out of range") :=
  ⟨rfl, fun _ => rfl, fun _ => rfl, rfl, rfl, fun _ => rfl⟩

/-- The list failures that the three source functions do handle: every one
of the three conditions in `getRedditGolang`, the network failure in
`getHackerNews`, the network failure and the decode failure in `getNyt`. -/
theorem list_failure_handled (w : World) :
    (w.reddit golangListUrl (userAgent (w.getenv "REDDIT_USERNAME")) = .failed →
      (getRedditGolang w).result = .ok []) ∧
    (∀ r, w.reddit golangListUrl (userAgent (w.getenv "REDDIT_USERNAME")) = .resp r →
      r.StatusCode ≠ 200 ∨ r.decodeErr = true → (getRedditGolang w).result = .ok []) ∧
    (w.hnList hackerNewsListUrl = .failed →
      ∀ sched, getHackerNews w sched = .ok (some [])) ∧
    (w.nyt (nytUrl (w.getenv "NYT_API_KEY")) = .failed → (getNyt w).result = .ok []) ∧
    (∀ r, w.nyt (nytUrl (w.getenv "NYT_API_KEY")) = .resp r → r.decodeErr = true →
      (getNyt w).result = .ok []) := by
  refine ⟨?_, ?_, ?_, ?_, ?_⟩
  · intro h
    by_cases hu : w.getenv "REDDIT_USERNAME" = "" <;> simp [getRedditGolang, hu, h]
  · intro r h hr
    by_cases hu : w.getenv "REDDIT_USERNAME" = ""
    · simp [getRedditGolang, hu]
    · rcases hr with hr | hr
      · simp [getRedditGolang, hu, h, hr]
      · by_cases hs : r.StatusCode = 200 <;> simp [getRedditGolang, hu, h, hr, hs]
  · intro h sched
    simp [getHackerNews, hnTopItems, h]
  · intro h
    by_cases hu : w.getenv "NYT_API_KEY" = "" <;> simp [getNyt, hu, h]
  · intro r h hr
    by_cases hu : w.getenv "NYT_API_KEY" = "" <;> simp [getNyt, hu, h, hr]

end Sponge
